import Mathlib

/-!
Shallow embedding of `scripts/unrelease-cli.py`: a one-shot utility that
removes a version entry from the `cli-releases.json` manifest, recomputing
the `latest` pointer when needed, and rewrites the file.
-/

namespace Unrelease

/-- Tail of a Python integer literal body after its first digit: a run of
ASCII digits in which each underscore must be followed by a digit
(`int("1_0")` succeeds, `int("1__0")` and `int("1_")` fail). -/
def undTail : List Char → Bool
  | [] => true
  | c :: cs =>
    if c.isDigit then undTail cs
    else if c = '_' then
      match cs with
      | c2 :: cs2 => c2.isDigit && undTail cs2
      | [] => false
    else false

/-- A nonempty digit run with optional single underscores between digits. -/
def undOk : List Char → Bool
  | [] => false
  | c :: cs => c.isDigit && undTail cs

/-- Numeric value of a digit run, skipping underscores. -/
def digitsVal (cs : List Char) : Nat :=
  cs.foldl (fun n c => if c = '_' then n else n * 10 + (c.toNat - 48)) 0

/-- Model of Python `int(s)` on the characters of a string: strip surrounding
whitespace, then an optional sign followed by digits (with underscore
grouping); `none` models the `ValueError` that the script's bare `except:`
catches. -/
def pyIntChars (t0 : List Char) : Option Int :=
  let t := ((t0.dropWhile Char.isWhitespace).reverse.dropWhile
      Char.isWhitespace).reverse
  match t with
  | '+' :: rest => if undOk rest then some (digitsVal rest : Int) else none
  | '-' :: rest => if undOk rest then some (-(digitsVal rest : Int)) else none
  | rest => if undOk rest then some (digitsVal rest : Int) else none

/-- Python `int(s)` on a string argument. -/
def pyInt (s : String) : Option Int := pyIntChars s.data

/-- Python `v.split('.')`: split on every dot, keeping empty pieces, so that
`"".split('.') == ['']` and `"1..2".split('.') == ['1', '', '2']`. -/
def splitDots : List Char → List (List Char)
  | [] => [[]]
  | c :: cs =>
    if c = '.' then [] :: splitDots cs
    else
      match splitDots cs with
      | [] => [[c]]
      | p :: ps => (c :: p) :: ps

/-- The function `version_key` from the script: split on `.`, convert every component with
`int`; on any failure fall back to the tuple `(0, 0, 0)`. -/
def version_key (v : String) : List Int :=
  match (splitDots v.data).mapM pyIntChars with
  | some ks => ks
  | none => [0, 0, 0]

/-- Python `<=` on int tuples (of possibly different lengths): lexicographic,
a strict prefix being smaller. -/
def tupLe : List Int → List Int → Bool
  | [], _ => true
  | _ :: _, [] => false
  | a :: xs, b :: ys => if a < b then true else if b < a then false else tupLe xs ys

/-- Comparison of version strings by their numeric tuple key, as used by
`remaining.sort(key=version_key)`. -/
def keyLe (x y : String) : Prop := tupLe (version_key x) (version_key y) = true

instance : DecidableRel keyLe := fun _ _ => instDecidableEqBool _ _

theorem tupLe_refl : ∀ l : List Int, tupLe l l = true
  | [] => rfl
  | a :: xs => by simp [tupLe, tupLe_refl xs]

theorem tupLe_total : ∀ a b : List Int, tupLe a b = true ∨ tupLe b a = true
  | [], _ => Or.inl rfl
  | _ :: _, [] => Or.inr rfl
  | a :: xs, b :: ys => by
    by_cases hab : a < b
    · exact Or.inl (by simp [tupLe, hab])
    · by_cases hba : b < a
      · exact Or.inr (by simp [tupLe, hba])
      · rcases tupLe_total xs ys with h | h
        · exact Or.inl (by simp [tupLe, hab, hba, h])
        · exact Or.inr (by simp [tupLe, hab, hba, h])

theorem tupLe_trans : ∀ a b c : List Int,
    tupLe a b = true → tupLe b c = true → tupLe a c = true
  | [], _, _, _, _ => rfl
  | _ :: _, [], _, h, _ => by simp [tupLe] at h
  | _ :: _, _ :: _, [], _, h => by simp [tupLe] at h
  | a :: xs, b :: ys, c :: zs, hab, hbc => by
    simp only [tupLe] at hab hbc ⊢
    rcases lt_trichotomy a b with h1 | h1 | h1
    · rcases lt_trichotomy b c with h2 | h2 | h2
      · simp [h1.trans h2]
      · simp [h2 ▸ h1]
      · simp [asymm h2, h2] at hbc
    · subst h1
      rcases lt_trichotomy a c with h2 | h2 | h2
      · simp [h2]
      · subst h2
        simp only [lt_irrefl, if_false] at hab hbc ⊢
        exact tupLe_trans xs ys zs hab hbc
      · simp [asymm h2, h2] at hbc
    · simp [asymm h1, h1] at hab

/-- If `tupLe a b` fails then the keys differ (because `tupLe` is reflexive). -/
theorem ne_of_tupLe_eq_false {a b : List Int} (h : tupLe a b = false) : a ≠ b := by
  intro he
  rw [he, tupLe_refl] at h
  simp at h

instance : IsTotal String keyLe := ⟨fun _ _ => tupLe_total _ _⟩

instance : IsTrans String keyLe := ⟨fun _ _ _ => tupLe_trans _ _ _⟩

/-- Model of `remaining.sort(key=version_key)`: Python's sort is stable and ascending,
which insertion sort with the key order realises exactly. -/
def sortByKey (l : List String) : List String := l.insertionSort keyLe

/-- Model of `remaining[-1]`: the last element of a list (default for the empty case,
which the script never hits because it checks `if remaining:` first). -/
def lastD : List String → String → String
  | [], d => d
  | [x], _ => x
  | _ :: x :: xs, d => lastD (x :: xs) d

/-- The in-memory form of `cli-releases.json`: `releases` is an
insertion-ordered mapping from version string to arbitrary metadata `α`;
`none` models an absent field. -/
structure Manifest (α : Type) where
  latest : Option String
  releases : Option (List (String × α))
  updated_at : Option String
deriving DecidableEq

/-- Effect of `del` on the mapping: drop the entries keyed by
`k`, keeping the order of the rest. -/
def delKey {α : Type} (l : List (String × α)) (k : String) : List (String × α) :=
  l.filter (fun p => decide (p.1 ≠ k))

/-- The lookup-and-delete step `del data['releases'][version]`: `none` models
the `KeyError` raised when the `releases` field or the key is missing. -/
def popKey {α : Type} (rel : Option (List (String × α))) (k : String) :
    Option (List (String × α)) :=
  match rel with
  | none => none
  | some l => if k ∈ l.map Prod.fst then some (delKey l k) else none

/-- Observable result of one run of the script: process exit status, whether
the manifest file was opened, the manifest written back (`none` when the file
is left untouched), the stdout and stderr lines, and whether the run died of
an uncaught `KeyError` at the delete step. -/
structure Outcome (α : Type) where
  exitCode : Nat
  opened : Bool
  written : Option (Manifest α)
  out : List String
  err : List String
  crashed : Bool
deriving DecidableEq

/-- The usage line printed on wrong arity. -/
def usageMsg : String := "Usage: unrelease-cli.py <version>"

/-- Model of the comprehension over `releases.keys()`: the remaining
version keys, in the insertion order of `releases`. -/
def remainingKeys {α : Type} (data : Manifest α) (v : String) : List String :=
  ((data.releases.getD []).map Prod.fst).filter (fun k => decide (k ≠ v))

/-- The conditional `latest` recompute of the script: the value of the
`latest` field after the block plus the lines it prints. -/
def updLatest {α : Type} (data : Manifest α) (v : String) :
    Option String × List String :=
  if data.latest = some v then
    if (remainingKeys data v).isEmpty then
      (data.latest, ["  Warning: No other versions found"])
    else
      let nl := lastD (sortByKey (remainingKeys data v)) ""
      (some nl, [s!"  Updated latest to {nl}"])
  else (data.latest, [])

/-- The function `main()` of the script, over the user-supplied arguments,
the parsed manifest, and the formatted current UTC time. -/
def runMain {α : Type} (args : List String) (data : Manifest α) (now : String) :
    Outcome α :=
  match args with
  | [v] =>
    if v ∈ (data.releases.getD []).map Prod.fst then
      let upd := updLatest data v
      match popKey data.releases v with
      | some rel2 =>
        { exitCode := 0, opened := true,
          written := some { latest := upd.1, releases := some rel2,
                            updated_at := some now },
          out := upd.2 ++ [s!"  Removed {v} from releases", "  ✓ Manifest updated"],
          err := [], crashed := false }
      | none =>
        { exitCode := 1, opened := true, written := none, out := upd.2,
          err := [], crashed := true }
    else
      { exitCode := 1, opened := true, written := none, out := [],
        err := [s!"Error: Version {v} not found in cli-releases.json"],
        crashed := false }
  | _ =>
    { exitCode := 1, opened := false, written := none, out := [],
      err := [usageMsg], crashed := false }

/-- The worked scenario manifest of spec §8, also carrying the three
remaining versions of P2. -/
def exScenario : Manifest Unit :=
  { latest := some "2.0.0",
    releases := some [("2.0.0", ()), ("1.0.0", ()), ("1.2.0", ()), ("1.1.5", ())],
    updated_at := some "2023-01-01T00:00:00Z" }

/-- A manifest whose sole release is also the `latest` one. -/
def exSole : Manifest Unit :=
  { latest := some "1.0.0",
    releases := some [("1.0.0", ())],
    updated_at := some "2023-01-01T00:00:00Z" }

/-- A manifest whose recompute is among the versions `"0"` and `"abc"`. -/
def exFallback : Manifest Unit :=
  { latest := some "1.0.0",
    releases := some [("1.0.0", ()), ("0", ()), ("abc", ())],
    updated_at := none }

/-- A manifest whose recompute is among `"abc"` and the numeric `"2.0.0"`. -/
def exNumeric : Manifest Unit :=
  { latest := some "1.0.0",
    releases := some [("1.0.0", ()), ("abc", ()), ("2.0.0", ())],
    updated_at := none }

/-- A manifest whose recompute is among `"0.0.0"` and `"abc"`, whose numeric
tuple keys tie at `(0, 0, 0)`. -/
def exTie : Manifest Unit :=
  { latest := some "1.0.0",
    releases := some [("1.0.0", ()), ("0.0.0", ()), ("abc", ())],
    updated_at := none }

/-- The manifest the run on `exScenario` writes back. -/
def exScenarioOut : Manifest Unit :=
  { latest := some "1.2.0",
    releases := some [("1.0.0", ()), ("1.2.0", ()), ("1.1.5", ())],
    updated_at := some "T" }

theorem lastD_mem : ∀ (l : List String) (d : String), l ≠ [] → lastD l d ∈ l
  | [], _, h => absurd rfl h
  | [x], _, _ => by simp [lastD]
  | a :: b :: t, d, _ => by
    rw [show lastD (a :: b :: t) d = lastD (b :: t) d from rfl]
    exact List.mem_cons_of_mem a (lastD_mem (b :: t) d (by simp))

theorem lastD_cons_of_ne_nil (x : String) :
    ∀ (t : List String) (d : String), t ≠ [] → lastD (x :: t) d = lastD t d
  | [], _, h => absurd rfl h
  | _ :: _, _, _ => rfl

theorem sorted_tupLe_lastD : ∀ (L : List String) (d : String), L.Sorted keyLe →
    ∀ u ∈ L, tupLe (version_key u) (version_key (lastD L d)) = true
  | [], _, _, u, hu => absurd hu (List.not_mem_nil u)
  | [x], _, _, u, hu => by
    rcases List.mem_singleton.mp hu with rfl
    simpa [lastD] using tupLe_refl (version_key u)
  | a :: b :: t, d, hs, u, hu => by
    rw [show lastD (a :: b :: t) d = lastD (b :: t) d from rfl]
    rcases List.mem_cons.mp hu with rfl | hu2
    · exact List.rel_of_sorted_cons hs _ (lastD_mem (b :: t) d (by simp))
    · exact sorted_tupLe_lastD (b :: t) d hs.of_cons u hu2

theorem sortByKey_sorted (l : List String) : (sortByKey l).Sorted keyLe :=
  List.sorted_insertionSort keyLe l

theorem mem_sortByKey {u : String} {l : List String} : u ∈ sortByKey l ↔ u ∈ l :=
  List.mem_insertionSort keyLe

theorem sortByKey_ne_nil {l : List String} (h : l ≠ []) : sortByKey l ≠ [] := by
  intro he
  have hlen := List.length_insertionSort keyLe l
  rw [show l.insertionSort keyLe = sortByKey l from rfl, he] at hlen
  exact h (List.length_eq_zero.mp hlen.symm)

/-- The element the script picks as the new `latest` is one of the remaining
versions and is maximal for the numeric tuple key. -/
theorem lastD_sortByKey_spec (l : List String) (d : String) (h : l ≠ []) :
    lastD (sortByKey l) d ∈ l ∧
      ∀ u ∈ l, tupLe (version_key u) (version_key (lastD (sortByKey l) d)) = true := by
  refine ⟨mem_sortByKey.mp (lastD_mem _ _ (sortByKey_ne_nil h)), fun u hu => ?_⟩
  exact sorted_tupLe_lastD (sortByKey l) d (sortByKey_sorted l) u (mem_sortByKey.mpr hu)

theorem filter_orderedInsert_stable (p : String → Bool) (x : String)
    (hp : ∀ z : String, ¬ keyLe x z → p x = true → p z = false) :
    ∀ l : List String,
      (List.orderedInsert keyLe x l).filter p =
        if p x then x :: l.filter p else l.filter p
  | [] => by cases hx : p x <;> simp [List.orderedInsert, List.filter_cons, hx]
  | y :: ys => by
    by_cases hxy : keyLe x y
    · rw [List.orderedInsert_of_le keyLe _ hxy]
      cases hx : p x <;> simp [List.filter_cons, hx]
    · have hstep : List.orderedInsert keyLe x (y :: ys) =
          y :: List.orderedInsert keyLe x ys := by
        simp [List.orderedInsert, hxy]
      rw [hstep]
      cases hx : p x
      · have ih := filter_orderedInsert_stable p x hp ys
        rw [hx] at ih
        simp only [if_false, Bool.false_eq_true] at ih
        simp [List.filter_cons, ih]
      · have hy : p y = false := hp y hxy hx
        have ih := filter_orderedInsert_stable p x hp ys
        rw [hx] at ih
        simp only [if_true] at ih
        simp [List.filter_cons, hy, ih]

theorem filter_sortByKey_stable (p : String → Bool)
    (hp : ∀ x z : String, ¬ keyLe x z → p x = true → p z = false) :
    ∀ l : List String, (sortByKey l).filter p = l.filter p
  | [] => rfl
  | x :: l => by
    rw [show sortByKey (x :: l) = List.orderedInsert keyLe x (sortByKey l) from rfl,
      filter_orderedInsert_stable p x (hp x) (sortByKey l)]
    cases hx : p x <;>
      simp [List.filter_cons, hx, filter_sortByKey_stable p hp l]

/-- Versions with a fixed numeric tuple key keep their relative order through
the stable sort. -/
theorem filter_keyEq_sortByKey (K : List Int) (l : List String) :
    (sortByKey l).filter (fun u => decide (version_key u = K)) =
      l.filter (fun u => decide (version_key u = K)) := by
  refine filter_sortByKey_stable _ (fun x z hxz hx => ?_) l
  have hne : version_key x ≠ version_key z :=
    ne_of_tupLe_eq_false (Bool.eq_false_iff.mpr hxz)
  have hxK : version_key x = K := of_decide_eq_true hx
  exact decide_eq_false (fun hzK => hne (hxK.trans hzK.symm))

theorem lastD_filter (p : String → Bool) :
    ∀ (l : List String) (d : String), l ≠ [] → p (lastD l d) = true →
      lastD (l.filter p) d = lastD l d
  | [], _, h, _ => absurd rfl h
  | [x], d, _, hp => by
    rw [show lastD [x] d = x from rfl] at hp
    simp [List.filter_cons, hp, lastD]
  | a :: b :: t, d, _, hp => by
    rw [show lastD (a :: b :: t) d = lastD (b :: t) d from rfl] at hp ⊢
    have ht := lastD_filter p (b :: t) d (by simp) hp
    have hne : (b :: t).filter p ≠ [] := by
      intro he
      have hmem : lastD (b :: t) d ∈ (b :: t).filter p :=
        List.mem_filter.mpr ⟨lastD_mem _ _ (by simp), hp⟩
      rw [he] at hmem
      exact List.not_mem_nil _ hmem
    cases ha : p a
    · rw [List.filter_cons, if_neg (by simp [ha])]
      exact ht
    · rw [List.filter_cons, if_pos (by simp [ha]),
        lastD_cons_of_ne_nil a ((b :: t).filter p) d hne]
      exact ht

theorem map_fst_filter_ne {α : Type} (v : String) :
    ∀ l : List (String × α),
      (l.filter (fun q => decide (q.1 ≠ v))).map Prod.fst =
        (l.map Prod.fst).filter (fun k => decide (k ≠ v))
  | [] => rfl
  | (k, a) :: t => by
    have ih := map_fst_filter_ne v t
    simp only [ne_eq, decide_not] at ih
    by_cases hk : k = v <;> simp [List.filter_cons, hk, ih]

theorem map_fst_delKey {α : Type} (v : String) (l : List (String × α)) :
    (delKey l v).map Prod.fst = (l.map Prod.fst).filter (fun k => decide (k ≠ v)) :=
  map_fst_filter_ne v l

theorem not_mem_map_fst_delKey {α : Type} (v : String) (l : List (String × α)) :
    v ∉ (delKey l v).map Prod.fst := by
  rw [map_fst_delKey]
  intro h
  rcases List.mem_filter.mp h with ⟨-, hv⟩
  simp at hv

theorem lookup_filter_ne {α : Type} (v k : String) (hk : k ≠ v) :
    ∀ l : List (String × α),
      (l.filter (fun q => decide (q.1 ≠ v))).lookup k = l.lookup k
  | [] => rfl
  | (a, b) :: t => by
    have ih := lookup_filter_ne v k hk t
    simp only [ne_eq, decide_not] at ih
    have hkv : (k == v) = false := beq_eq_false_iff_ne.mpr hk
    by_cases ha : a = v
    · have hka : (k == a) = false :=
        beq_eq_false_iff_ne.mpr (fun h => hk (h.trans ha))
      simp [List.filter_cons, ha, List.lookup, hka, hkv, ih]
    · by_cases hka : k = a
      · simp [List.filter_cons, ha, List.lookup, hka]
      · have hka2 : (k == a) = false := beq_eq_false_iff_ne.mpr hka
        simp [List.filter_cons, ha, List.lookup, hka2, hkv, ih]

theorem lookup_delKey {α : Type} (v k : String) (hk : k ≠ v)
    (l : List (String × α)) : (delKey l v).lookup k = l.lookup k :=
  lookup_filter_ne v k hk l

/-- The shape of every successful run: the target is deleted, `latest` comes
from the recompute step, the timestamp is refreshed, and the run exits 0. -/
theorem runMain_success {α : Type} (data : Manifest α) (rel : List (String × α))
    (v now : String) (hrel : data.releases = some rel) (hv : v ∈ rel.map Prod.fst) :
    runMain [v] data now =
      { exitCode := 0, opened := true,
        written := some { latest := (updLatest data v).1,
                          releases := some (delKey rel v),
                          updated_at := some now },
        out := (updLatest data v).2 ++
          [s!"  Removed {v} from releases", "  ✓ Manifest updated"],
        err := [], crashed := false } := by
  simp [runMain, popKey, hrel, hv]

theorem updLatest_of_ne {α : Type} (data : Manifest α) (v : String)
    (h : data.latest ≠ some v) : updLatest data v = (data.latest, []) := by
  simp [updLatest, h]

theorem updLatest_of_eq_empty {α : Type} (data : Manifest α) (v : String)
    (h : data.latest = some v) (hr : remainingKeys data v = []) :
    updLatest data v = (data.latest, ["  Warning: No other versions found"]) := by
  simp [updLatest, h, hr]

theorem updLatest_fst_of_eq {α : Type} (data : Manifest α) (v : String)
    (h : data.latest = some v) (hr : remainingKeys data v ≠ []) :
    (updLatest data v).1 = some (lastD (sortByKey (remainingKeys data v)) "") := by
  rw [updLatest, if_pos h, if_neg (by simpa [List.isEmpty_iff] using hr)]

theorem version_key_eq_fallback (v : String)
    (h : (splitDots v.data).mapM pyIntChars = none) :
    version_key v = [0, 0, 0] := by
  rw [version_key, h]

theorem version_key_eq_of_parse (v : String) (ks : List Int)
    (h : (splitDots v.data).mapM pyIntChars = some ks) :
    version_key v = ks := by
  rw [version_key, h]

theorem tupLe_zero_cons (a : Int) (xs ys : List Int) (ha : 0 ≤ a)
    (h : tupLe xs ys = true) : tupLe (0 :: xs) (a :: ys) = true := by
  rcases lt_or_eq_of_le ha with h1 | h1
  · simp [tupLe, h1]
  · simp [tupLe, ← h1, lt_irrefl, h]

theorem tupLe_zeros : ∀ ks : List Int, 3 ≤ ks.length → (∀ k ∈ ks, 0 ≤ k) →
    tupLe [0, 0, 0] ks = true
  | [], h, _ => by simp at h
  | [_], h, _ => by simp at h
  | [_, _], h, _ => by simp at h
  | a :: b :: c :: rest, _, hpos =>
    tupLe_zero_cons a _ _ (hpos a (by simp))
      (tupLe_zero_cons b _ _ (hpos b (by simp))
        (tupLe_zero_cons c _ _ (hpos c (by simp)) rfl))

/-- C1: when the removed version equals `latest` and at least one other key
remains, the run writes a manifest whose `latest` is one of the remaining
versions and is maximal for the numeric tuple key (split on `.`, integer
components, fallback `(0,0,0)`); in particular, on the manifest whose
remaining versions are `"1.0.0"`, `"1.2.0"` and `"1.1.5"`, the new `latest`
is `"1.2.0"`. -/
theorem latest_recompute_is_numeric_max :
    (∀ (α : Type) (data : Manifest α) (rel : List (String × α)) (v now : String),
      data.releases = some rel → data.latest = some v → v ∈ rel.map Prod.fst →
      remainingKeys data v ≠ [] →
      ∃ m : Manifest α, (runMain [v] data now).written = some m ∧
        ∃ L, m.latest = some L ∧ L ∈ remainingKeys data v ∧
          ∀ u ∈ remainingKeys data v,
            tupLe (version_key u) (version_key L) = true) ∧
    (runMain ["2.0.0"] exScenario "T").written.map Manifest.latest =
      some (some "1.2.0") := by
  constructor
  · intro α data rel v now hrel hl hv hr
    rw [runMain_success data rel v now hrel hv]
    exact ⟨_, rfl, lastD (sortByKey (remainingKeys data v)) "",
      updLatest_fst_of_eq data v hl hr,
      (lastD_sortByKey_spec _ _ hr).1, (lastD_sortByKey_spec _ _ hr).2⟩
  · decide

/-- C1 witness: the general statement applied to the spec's concrete
scenario manifest. -/
theorem latest_recompute_is_numeric_max_witness :
    ∃ m : Manifest Unit, (runMain ["2.0.0"] exScenario "T").written = some m ∧
      ∃ L, m.latest = some L ∧ L ∈ remainingKeys exScenario "2.0.0" ∧
        ∀ u ∈ remainingKeys exScenario "2.0.0",
          tupLe (version_key u) (version_key L) = true :=
  latest_recompute_is_numeric_max.1 Unit exScenario
    [("2.0.0", ()), ("1.0.0", ()), ("1.2.0", ()), ("1.1.5", ())] "2.0.0" "T"
    rfl rfl (by decide) (by decide)

/-- C2 counterexample: removing the sole version, which equals `latest`,
exits 0 yet writes a manifest whose `latest` still names the removed version
while `releases` is empty — so the claimed invariant fails as stated. -/
theorem latest_invariant_counterexample :
    (runMain ["1.0.0"] exSole "T").exitCode = 0 ∧
    (runMain ["1.0.0"] exSole "T").written.map Manifest.latest =
      some (some "1.0.0") ∧
    (runMain ["1.0.0"] exSole "T").written.map Manifest.releases =
      some (some []) := by decide

/-- C2 (amended): after a successful run on a manifest whose `latest`, when
set, names a key of `releases`, the written `latest`, if set, names a key of
the written `releases` — except when `releases` became empty, in which case
`latest` is left stale, equal to the removed version. -/
theorem latest_invariant_amended (α : Type) (data : Manifest α) (v now : String)
    (m : Manifest α)
    (hok : ∀ s, data.latest = some s → s ∈ (data.releases.getD []).map Prod.fst)
    (hw : (runMain [v] data now).written = some m) :
    (∀ s, m.latest = some s → s ∈ (m.releases.getD []).map Prod.fst) ∨
      (m.releases = some [] ∧ m.latest = some v ∧ data.latest = some v) := by
  rcases hrel : data.releases with _ | rel
  · simp [runMain, hrel] at hw
  · by_cases hv : v ∈ rel.map Prod.fst
    · rw [runMain_success data rel v now hrel hv] at hw
      injection hw with hw
      have hml : m.latest = (updLatest data v).1 := by rw [← hw]
      have hmr : m.releases = some (delKey rel v) := by rw [← hw]
      have hkeys : (delKey rel v).map Prod.fst = remainingKeys data v := by
        rw [map_fst_delKey, remainingKeys, hrel, Option.getD_some]
      by_cases hl : data.latest = some v
      · by_cases hrem : remainingKeys data v = []
        · refine Or.inr ⟨?_, ?_, hl⟩
          · have h1 : (delKey rel v).map Prod.fst = [] := by rw [hkeys, hrem]
            rw [hmr, List.map_eq_nil_iff.mp h1]
          · rw [hml, updLatest_of_eq_empty data v hl hrem]
            exact hl
        · refine Or.inl fun s hs => ?_
          rw [hml, updLatest_fst_of_eq data v hl hrem] at hs
          injection hs with hs
          subst hs
          have hmem := (lastD_sortByKey_spec (remainingKeys data v) "" hrem).1
          simpa [hmr, hkeys] using hmem
      · refine Or.inl fun s hs => ?_
        rw [hml, updLatest_of_ne data v hl] at hs
        have hsv : s ≠ v := fun he => hl (he ▸ hs)
        have hsk : s ∈ rel.map Prod.fst := by simpa [hrel] using hok s hs
        have hsr : s ∈ remainingKeys data v := by
          rw [remainingKeys, hrel, Option.getD_some]
          exact List.mem_filter.mpr ⟨hsk, by simp [hsv]⟩
        simpa [hmr, hkeys] using hsr
    · simp [runMain, hrel, Option.getD_some, hv] at hw

/-- C2 witness: the amended invariant applied to the spec scenario. -/
theorem latest_invariant_amended_witness :
    (∀ s, exScenarioOut.latest = some s →
        s ∈ (exScenarioOut.releases.getD []).map Prod.fst) ∨
      (exScenarioOut.releases = some [] ∧ exScenarioOut.latest = some "2.0.0" ∧
        exScenario.latest = some "2.0.0") :=
  latest_invariant_amended Unit exScenario "2.0.0" "T" exScenarioOut
    (fun s h => by
      injection h with h
      subst h
      decide)
    (by decide)

/-- C3: when the target version is not a key of `releases` (a missing
`releases` field counting as empty), the run reports the error on stderr,
exits with status 1, and writes nothing, leaving the file untouched. -/
theorem not_found_no_write (α : Type) (data : Manifest α) (v now : String)
    (h : v ∉ (data.releases.getD []).map Prod.fst) :
    runMain [v] data now =
      { exitCode := 1, opened := true, written := none, out := [],
        err := [s!"Error: Version {v} not found in cli-releases.json"],
        crashed := false } := by
  simp [runMain, h]

/-- C3 witness: a version absent from the scenario manifest. -/
theorem not_found_no_write_witness :
    ("9.9.9" ∉ (exScenario.releases.getD []).map Prod.fst) ∧
    runMain ["9.9.9"] exScenario "T" =
      { exitCode := 1, opened := true, written := none, out := [],
        err := ["Error: Version 9.9.9 not found in cli-releases.json"],
        crashed := false } :=
  ⟨by decide, not_found_no_write Unit exScenario "9.9.9" "T" (by decide)⟩

/-- C4: removing a version different from `latest` exits 0 and writes a
manifest whose `releases` lacks the target, maps every other key to its
original metadata, and whose `latest` is unchanged. -/
theorem remove_non_latest (α : Type) (data : Manifest α)
    (rel : List (String × α)) (v now : String) (hrel : data.releases = some rel)
    (hv : v ∈ rel.map Prod.fst) (hl : data.latest ≠ some v) :
    (runMain [v] data now).exitCode = 0 ∧
    ∃ m : Manifest α, (runMain [v] data now).written = some m ∧
      m.latest = data.latest ∧
      m.releases = some (delKey rel v) ∧
      v ∉ (delKey rel v).map Prod.fst ∧
      ∀ k, k ≠ v → (delKey rel v).lookup k = rel.lookup k := by
  rw [runMain_success data rel v now hrel hv]
  refine ⟨rfl, _, rfl, ?_, rfl, not_mem_map_fst_delKey v rel,
    fun k hk => lookup_delKey v k hk rel⟩
  rw [updLatest_of_ne data v hl]

/-- C4 witness: removing `"1.1.5"` (not the latest) from the scenario. -/
theorem remove_non_latest_witness :
    (runMain ["1.1.5"] exScenario "T").exitCode = 0 ∧
    ∃ m : Manifest Unit, (runMain ["1.1.5"] exScenario "T").written = some m ∧
      m.latest = exScenario.latest ∧
      m.releases = some (delKey [("2.0.0", ()), ("1.0.0", ()), ("1.2.0", ()),
        ("1.1.5", ())] "1.1.5") ∧
      "1.1.5" ∉ (delKey [("2.0.0", ()), ("1.0.0", ()), ("1.2.0", ()),
        ("1.1.5", ())] "1.1.5").map Prod.fst ∧
      ∀ k, k ≠ "1.1.5" →
        (delKey [("2.0.0", ()), ("1.0.0", ()), ("1.2.0", ()),
          ("1.1.5", ())] "1.1.5").lookup k =
        [("2.0.0", ()), ("1.0.0", ()), ("1.2.0", ()),
          ("1.1.5", ())].lookup k :=
  remove_non_latest Unit exScenario
    [("2.0.0", ()), ("1.0.0", ()), ("1.2.0", ()), ("1.1.5", ())] "1.1.5" "T"
    rfl (by decide) (by decide)

/-- C5 counterexample: with remaining versions `["0", "abc"]` the recompute
selects `"abc"` — a version whose components do not all convert — even though
it is not the only remaining key: `(0,) < (0,0,0)` in Python's tuple order. -/
theorem nonnumeric_selected_counterexample :
    (runMain ["1.0.0"] exFallback "T").written.map Manifest.latest =
      some (some "abc") ∧
    remainingKeys exFallback "1.0.0" = ["0", "abc"] ∧
    (splitDots "abc".data).mapM pyIntChars = none := by decide

/-- C5 (amended): during a recompute, a version whose components do not all
convert (key `(0,0,0)`) is never selected as the new `latest` when some
remaining version has a key strictly greater than `(0,0,0)`; it can win not
only when alone but also over parseable versions with keys not above
`(0,0,0)`, as the counterexample's `"0"` shows. -/
theorem nonnumeric_not_selected_amended (α : Type) (data : Manifest α)
    (rel : List (String × α)) (v now u : String)
    (hrel : data.releases = some rel) (hl : data.latest = some v)
    (hv : v ∈ rel.map Prod.fst) (hu : u ∈ remainingKeys data v)
    (hgt : tupLe (version_key u) [0, 0, 0] = false) :
    ∃ m : Manifest α, (runMain [v] data now).written = some m ∧
      ∃ L, m.latest = some L ∧ (splitDots L.data).mapM pyIntChars ≠ none := by
  have hr : remainingKeys data v ≠ [] := fun he => by
    rw [he] at hu
    exact List.not_mem_nil u hu
  rw [runMain_success data rel v now hrel hv]
  refine ⟨_, rfl, lastD (sortByKey (remainingKeys data v)) "",
    updLatest_fst_of_eq data v hl hr, fun hnone => ?_⟩
  have hmax := (lastD_sortByKey_spec (remainingKeys data v) "" hr).2 u hu
  rw [version_key_eq_fallback _ hnone] at hmax
  rw [hgt] at hmax
  exact absurd hmax (by decide)

/-- C5 witness: with `"2.0.0"` among the remaining keys the selected latest
parses. -/
theorem nonnumeric_not_selected_amended_witness :
    ∃ m : Manifest Unit, (runMain ["1.0.0"] exNumeric "T").written = some m ∧
      ∃ L, m.latest = some L ∧ (splitDots L.data).mapM pyIntChars ≠ none :=
  nonnumeric_not_selected_amended Unit exNumeric
    [("1.0.0", ()), ("abc", ()), ("2.0.0", ())] "1.0.0" "T" "2.0.0"
    rfl rfl (by decide) (by decide) (by decide)

/-- C6: removing the sole remaining version when it equals `latest` exits 0,
writes an empty `releases` with `latest` left stale at the removed version
and a fresh timestamp, and prints the warning line. -/
theorem remove_sole_version_stale (α : Type) (data : Manifest α)
    (rel : List (String × α)) (v now : String)
    (hrel : data.releases = some rel) (hl : data.latest = some v)
    (hv : v ∈ rel.map Prod.fst) (hall : ∀ k ∈ rel.map Prod.fst, k = v) :
    (runMain [v] data now).exitCode = 0 ∧
    (runMain [v] data now).written =
      some { latest := some v, releases := some ([] : List (String × α)),
             updated_at := some now } ∧
    "  Warning: No other versions found" ∈ (runMain [v] data now).out := by
  have hrem : remainingKeys data v = [] := by
    rw [remainingKeys, hrel]
    refine List.filter_eq_nil_iff.mpr fun k hk => ?_
    simp [hall k (by simpa using hk)]
  have hdel : delKey rel v = [] := by
    have h1 : (delKey rel v).map Prod.fst = [] := by
      rw [map_fst_delKey]
      simpa [remainingKeys, hrel] using hrem
    exact List.map_eq_nil_iff.mp h1
  rw [runMain_success data rel v now hrel hv,
    updLatest_of_eq_empty data v hl hrem]
  refine ⟨rfl, ?_, by simp⟩
  rw [hdel, hl]

/-- C6 witness: the sole-version manifest. -/
theorem remove_sole_version_stale_witness :
    (runMain ["1.0.0"] exSole "T").exitCode = 0 ∧
    (runMain ["1.0.0"] exSole "T").written =
      some { latest := some "1.0.0", releases := some ([] : List (String × Unit)),
             updated_at := some "T" } ∧
    "  Warning: No other versions found" ∈ (runMain ["1.0.0"] exSole "T").out :=
  remove_sole_version_stale Unit exSole [("1.0.0", ())] "1.0.0" "T"
    rfl rfl (by decide) (by decide)

/-- C7 counterexample: `"abc"` falls back to key `(0,0,0)` while `"0"`
converts to the shorter tuple `(0,)`, and `(0,) < (0,0,0)` in Python's tuple
order, so the fallback key sorts strictly above a fully numeric version. -/
theorem fallback_not_lowest_counterexample :
    (splitDots "0".data).mapM pyIntChars = some [(0 : Int)] ∧
    version_key "abc" = [0, 0, 0] ∧
    tupLe (version_key "abc") (version_key "0") = false ∧
    tupLe (version_key "0") (version_key "abc") = true := by decide

/-- C7 (amended): the fallback key `(0,0,0)` never sorts strictly above a
version string with at least three components that all convert to
nonnegative integers; shorter or negative numeric tuples can still sort
strictly below it, as the counterexample's `"0"` shows. -/
theorem fallback_lowest_amended (w v : String) (ks : List Int)
    (hw : (splitDots w.data).mapM pyIntChars = none)
    (hv : (splitDots v.data).mapM pyIntChars = some ks)
    (hlen : 3 ≤ ks.length) (hpos : ∀ k ∈ ks, 0 ≤ k) :
    tupLe (version_key w) (version_key v) = true := by
  rw [version_key_eq_fallback w hw, version_key_eq_of_parse v ks hv]
  exact tupLe_zeros ks hlen hpos

/-- C7 witness: the fallback key does not sort above `"1.0.0"`. -/
theorem fallback_lowest_amended_witness :
    tupLe (version_key "abc") (version_key "1.0.0") = true :=
  fallback_lowest_amended "abc" "1.0.0" [1, 0, 0]
    (by decide) (by decide) (by decide) (by decide)

/-- C8: with zero or two-plus arguments the run prints the usage line to
stderr and exits 1 without opening the manifest file. -/
theorem wrong_arity_usage (α : Type) (args : List String) (data : Manifest α)
    (now : String) (h : args.length ≠ 1) :
    runMain args data now =
      { exitCode := 1, opened := false, written := none, out := [],
        err := [usageMsg], crashed := false } := by
  match args with
  | [] => rfl
  | _ :: _ :: _ => rfl
  | [_] => exact absurd rfl h

/-- C8 witness: two arguments. -/
theorem wrong_arity_usage_witness :
    runMain ["1.0.0", "2.0.0"] exScenario "T" =
      { exitCode := 1, opened := false, written := none, out := [],
        err := [usageMsg], crashed := false } :=
  wrong_arity_usage Unit ["1.0.0", "2.0.0"] exScenario "T" (by decide)

/-- C9: the delete step is only reached once the membership check has
succeeded (with a missing `releases` treated as empty), so no run on any
input ever dies of a missing-key error there. -/
theorem delete_never_key_error (α : Type) (args : List String)
    (data : Manifest α) (now : String) :
    (runMain args data now).crashed = false := by
  match args with
  | [] => rfl
  | _ :: _ :: _ => rfl
  | [v] =>
    by_cases hv : v ∈ (data.releases.getD []).map Prod.fst
    · rcases hrel : data.releases with _ | rel
      · rw [hrel] at hv
        simp at hv
      · rw [hrel] at hv
        simp only [Option.getD_some] at hv
        rw [runMain_success data rel v now hrel hv]
    · simp [runMain, hv]

/-- C10: the sort is stable, so the version picked as the new `latest` is the
one appearing last, in the original key order of `releases`, among the
remaining versions that share its numeric tuple key. -/
theorem stable_tie_picks_last (α : Type) (data : Manifest α)
    (rel : List (String × α)) (v now : String)
    (hrel : data.releases = some rel) (hl : data.latest = some v)
    (hv : v ∈ rel.map Prod.fst) (hr : remainingKeys data v ≠ []) :
    ∃ m : Manifest α, (runMain [v] data now).written = some m ∧
      ∃ L, m.latest = some L ∧
        lastD ((remainingKeys data v).filter
          (fun u => decide (version_key u = version_key L))) "" = L := by
  rw [runMain_success data rel v now hrel hv]
  refine ⟨_, rfl, lastD (sortByKey (remainingKeys data v)) "",
    updLatest_fst_of_eq data v hl hr, ?_⟩
  rw [← filter_keyEq_sortByKey
    (version_key (lastD (sortByKey (remainingKeys data v)) ""))
    (remainingKeys data v)]
  exact lastD_filter _ (sortByKey (remainingKeys data v)) ""
    (sortByKey_ne_nil hr) (by simp)

/-- C10 witness: keys `"0.0.0"` and `"abc"` tie at `(0,0,0)`; the later one
in the original order, `"abc"`, is picked. -/
theorem stable_tie_picks_last_witness :
    ∃ m : Manifest Unit, (runMain ["1.0.0"] exTie "T").written = some m ∧
      ∃ L, m.latest = some L ∧
        lastD ((remainingKeys exTie "1.0.0").filter
          (fun u => decide (version_key u = version_key L))) "" = L :=
  stable_tie_picks_last Unit exTie
    [("1.0.0", ()), ("0.0.0", ()), ("abc", ())] "1.0.0" "T"
    rfl rfl (by decide) (by decide)

end Unrelease
